import Mathlib

/-!
Verification of the Cuthbert network route visualizer.

The only executable artifact in the repository is the browser client
`src/web/static/app.js`; the route-intelligence core (route table, node
registry, discovery, bandwidth coordinator) exists only as the design
documents, so those components are modelled from the specification text.

The client's JavaScript `Map`s are embedded as association lists in
insertion order: `Map.set` updates an existing key in place or appends a
fresh key at the end, `Map.get` returns the value at a key, `Map.delete`
removes the entry at a key.
-/

namespace Cuthbert

/-- JS `Map.get(k)`: value stored at key `k`, if any. -/
def mapGet {α : Type} : List (String × α) → String → Option α
  | [], _ => none
  | p :: ps, k => if p.1 = k then some p.2 else mapGet ps k

/-- JS `Map.set(k, v)`: update the entry in place if the key exists,
otherwise append at the end (insertion order preserved). -/
def mapSet {α : Type} : List (String × α) → String → α → List (String × α)
  | [], k, v => [(k, v)]
  | p :: ps, k, v => if p.1 = k then (k, v) :: ps else p :: mapSet ps k v

/-- JS `Map.delete(k)`: remove the entry at key `k`. -/
def mapDelete {α : Type} : List (String × α) → String → List (String × α)
  | [], _ => []
  | p :: ps, k => if p.1 = k then mapDelete ps k else p :: mapDelete ps k

theorem mapGet_mapSet_self {α : Type} (m : List (String × α)) (k : String) (v : α) :
    mapGet (mapSet m k v) k = some v := by
  induction m with
  | nil => simp [mapGet, mapSet]
  | cons p ps ih =>
    by_cases h : p.1 = k
    · simp [mapGet, mapSet, h]
    · simp [mapGet, mapSet, h, ih]

theorem mapGet_mapSet_ne {α : Type} (m : List (String × α)) (k k' : String) (v : α)
    (h : k' ≠ k) : mapGet (mapSet m k v) k' = mapGet m k' := by
  have hne : k ≠ k' := fun hk => h hk.symm
  induction m with
  | nil => simp [mapGet, mapSet, hne]
  | cons p ps ih =>
    by_cases hp : p.1 = k
    · simp [mapGet, mapSet, hp, hne]
    · simp [mapGet, mapSet, hp, ih]

theorem isSome_mapGet_mapSet {α : Type} (m : List (String × α)) (k k' : String) (v : α)
    (h : (mapGet m k').isSome) : (mapGet (mapSet m k v) k').isSome := by
  by_cases hk : k' = k
  · subst hk; simp [mapGet_mapSet_self]
  · rwa [mapGet_mapSet_ne m k k' v hk]

/-- Record for one discovered node as the client stores it
(`node.id`, `node.hostname`, `node.addresses`, `node.status` in app.js). -/
structure NodeInfo where
  id : String
  hostname : String
  addresses : List String
  status : String
deriving Repr, DecidableEq

/-- A WebSocket push message as the client sees it after `JSON.parse`:
a `type` discriminator string plus the payload fields the handlers read.
Fields that a given message kind does not carry are simply ignored by the
dispatcher, as in the duck-typed JavaScript original. -/
structure Message where
  type : String
  node : NodeInfo
  node_id : String
  status : String
  connections : List (String × ℚ)
  test_id : String
  target_node_id : String
  upload_mbps : ℚ
  download_mbps : ℚ
  phase : String
  progress_percent : Nat
  text : String
deriving Repr, DecidableEq

/-- The client-side mutable state of `RouteVisualizer` that the WebSocket
handlers touch: `discoveredNodes`, `latencyData`, `bandwidthTests`
(testId → last progress message), `bandwidthResults` (nodeId → result
message). Scene/DOM objects are outside the model. -/
structure ClientState where
  discoveredNodes : List (String × NodeInfo)
  latencyData : List (String × ℚ)
  bandwidthTests : List (String × Message)
  bandwidthResults : List (String × Message)
deriving Repr, DecidableEq

/-- `handleNodeDiscovered` (app.js line 213): `discoveredNodes.set(node.id, node)`. -/
def handleNodeDiscovered (st : ClientState) (node : NodeInfo) : ClientState :=
  { st with discoveredNodes := mapSet st.discoveredNodes node.id node }

/-- `handleNodeStatusChanged` (app.js line 221): look the node up; if present,
overwrite its `status` field in place, otherwise do nothing. -/
def handleNodeStatusChanged (st : ClientState) (nodeId status : String) : ClientState :=
  match mapGet st.discoveredNodes nodeId with
  | none => st
  | some n =>
      { st with discoveredNodes := mapSet st.discoveredNodes nodeId { n with status := status } }

/-- `handleLatencyUpdate` (app.js line 230): for each connection record,
`latencyData.set(conn.to, conn.latency_ms)`. Edge redraws touch only the scene. -/
def handleLatencyUpdate (st : ClientState) (conns : List (String × ℚ)) : ClientState :=
  conns.foldl (fun s c => { s with latencyData := mapSet s.latencyData c.1 c.2 }) st

/-- `handleBandwidthTestProgress` (app.js line 199):
`bandwidthTests.set(message.test_id, message)`. -/
def handleBandwidthTestProgress (st : ClientState) (m : Message) : ClientState :=
  { st with bandwidthTests := mapSet st.bandwidthTests m.test_id m }

/-- `handleBandwidthTestResult` (app.js line 205):
`bandwidthResults.set(message.target_node_id, message)` then
`bandwidthTests.delete(message.test_id)`. -/
def handleBandwidthTestResult (st : ClientState) (m : Message) : ClientState :=
  { st with bandwidthResults := mapSet st.bandwidthResults m.target_node_id m,
            bandwidthTests := mapDelete st.bandwidthTests m.test_id }

/-- `handleWebSocketMessage` (app.js lines 168–197): the `switch` on
`message.type`. `routing_table_changed` only logs, `trace_route_result`
and `error` only touch the scene/DOM, and an unmatched type falls through
the switch without any effect. -/
def handleWebSocketMessage (st : ClientState) (m : Message) : ClientState :=
  if m.type = "node_discovered" then handleNodeDiscovered st m.node
  else if m.type = "node_status_changed" then handleNodeStatusChanged st m.node_id m.status
  else if m.type = "latency_update" then handleLatencyUpdate st m.connections
  else if m.type = "routing_table_changed" then st
  else if m.type = "trace_route_result" then st
  else if m.type = "error" then st
  else if m.type = "bandwidth_test_progress" then handleBandwidthTestProgress st m
  else if m.type = "bandwidth_test_result" then handleBandwidthTestResult st m
  else st

/-- The closed set of `type` strings the client's switch statement matches. -/
def knownMessageTypes : List String :=
  ["node_discovered", "node_status_changed", "latency_update", "routing_table_changed",
   "trace_route_result", "error", "bandwidth_test_progress", "bandwidth_test_result"]

/-- `getLatencyColor` (app.js lines 268–276), over exact rational numbers as a
model of the JS numeric latency argument. -/
def getLatencyColor (latencyMs : ℚ) : Nat :=
  if latencyMs < 20 then 0x10b981
  else if latencyMs < 50 then 0x84cc16
  else if latencyMs < 100 then 0xfbbf24
  else if latencyMs < 200 then 0xf97316
  else 0xef4444

/-- The five colors `getLatencyColor` can produce, from best to worst. -/
def latencyPalette : List Nat := [0x10b981, 0x84cc16, 0xfbbf24, 0xf97316, 0xef4444]

/-- Band index of a latency value under the thresholds 20, 50, 100, 200 ms. -/
def latencyBand (latencyMs : ℚ) : Nat :=
  if latencyMs < 20 then 0
  else if latencyMs < 50 then 1
  else if latencyMs < 100 then 2
  else if latencyMs < 200 then 3
  else 4

/-- Node status, per the §4.2 state machine of the design. -/
inductive NodeStatus
  | Discovered
  | Online
  | Degraded
  | Offline
deriving Repr, DecidableEq

/-- Modelled from the spec: Node record of the NodeRegistry (the registry is
not implemented in the repository; only the design documents describe it).
Opaque id is the key in the registry map; timestamps are naturals. -/
structure NodeRec where
  hostname : String
  addresses : List String
  port : Nat
  status : NodeStatus
  last_seen : Nat
  known_peers : List String
deriving Repr, DecidableEq

/-- Modelled from the spec: discovery `AnnounceMessage
{node_id, hostname, addresses, port, timestamp, known_peers}`. -/
structure AnnounceMsg where
  node_id : String
  hostname : String
  addresses : List String
  port : Nat
  timestamp : Nat
  known_peers : List String
deriving Repr, DecidableEq

/-- Registry events published on the bus. -/
inductive RegEvent
  | node_discovered (id : String)
  | node_status_changed (id : String) (st : NodeStatus)
deriving Repr, DecidableEq

/-- Union-merge of two string sets kept as lists: keep the old elements,
append the genuinely new ones. -/
def unionMerge (old new : List String) : List String :=
  old ++ new.filter (fun a => decide (a ∉ old))

/-- Fresh node record created from a first announcement. -/
def newNode (m : AnnounceMsg) : NodeRec :=
  { hostname := m.hostname, addresses := m.addresses, port := m.port,
    status := NodeStatus.Discovered, last_seen := m.timestamp,
    known_peers := m.known_peers }

/-- Modelled from the spec: the merge step of `upsert` — union-merge the
address and peer sets, bump `last_seen` only forward, and revive an
Offline node only on a strictly newer announcement (`Offline → Online`
on a renewed announce). -/
def mergeNode (old : NodeRec) (m : AnnounceMsg) : NodeRec :=
  { old with
    addresses := unionMerge old.addresses m.addresses,
    known_peers := unionMerge old.known_peers m.known_peers,
    last_seen := max old.last_seen m.timestamp,
    status :=
      if old.last_seen < m.timestamp ∧ old.status = NodeStatus.Offline then NodeStatus.Online
      else old.status }

/-- Modelled from the spec: `upsert(nodeInfo)` of the NodeRegistry — merges
address sets, bumps `last_seen` only forward, emits `node_discovered` if the
node id is new, else `node_status_changed` if the merge causes a transition. -/
def upsert (reg : List (String × NodeRec)) (m : AnnounceMsg) :
    List (String × NodeRec) × List RegEvent :=
  match mapGet reg m.node_id with
  | none => (mapSet reg m.node_id (newNode m), [RegEvent.node_discovered m.node_id])
  | some old =>
      let merged := mergeNode old m
      (mapSet reg m.node_id merged,
        if merged.status ≠ old.status
        then [RegEvent.node_status_changed m.node_id merged.status]
        else [])

/-- A node is due for reaping when it is not yet Offline and has been silent
for longer than `peer_timeout`. -/
def needsReap (now timeout : Nat) (n : NodeRec) : Prop :=
  n.status ≠ NodeStatus.Offline ∧ timeout < now - n.last_seen

instance needsReapDecidable (now timeout : Nat) (n : NodeRec) :
    Decidable (needsReap now timeout n) := by
  unfold needsReap
  infer_instance

/-- Modelled from the spec: `reap()` of the NodeRegistry — marks every node
Offline once `now - last_seen > peer_timeout`, emitting one
`node_status_changed` event per transition; already-Offline nodes are
untouched and emit nothing. -/
def reap (reg : List (String × NodeRec)) (now timeout : Nat) :
    List (String × NodeRec) × List RegEvent :=
  (reg.map fun p =>
      (p.1, if needsReap now timeout p.2 then { p.2 with status := NodeStatus.Offline } else p.2),
    (reg.filter fun p => decide (needsReap now timeout p.2)).map
      fun p => RegEvent.node_status_changed p.1 NodeStatus.Offline)

theorem mapGet_map_value {α β : Type} (f : α → β) (m : List (String × α)) (k : String) :
    mapGet (m.map fun p => (p.1, f p.2)) k = (mapGet m k).map f := by
  induction m with
  | nil => simp [mapGet]
  | cons p ps ih =>
    by_cases h : p.1 = k
    · simp [mapGet, h]
    · simp [mapGet, h, ih]

/-- Modelled from the spec: the BandwidthCoordinator's book-keeping — the
local node id, the set of active tests keyed by unordered node pair, and a
counter used to mint test ids. -/
structure Coordinator where
  localId : String
  activeTests : List ((String × String) × String)
  nextId : Nat
deriving Repr, DecidableEq

/-- Bandwidth-test error taxonomy relevant to the concurrency contract. -/
inductive BwError
  | TestInProgress
deriving Repr, DecidableEq

/-- Lexicographic comparison of char lists by code point, used to pick the
canonical orientation of an unordered pair. -/
def charListLe : List Char → List Char → Bool
  | [], _ => true
  | _ :: _, [] => false
  | a :: as, b :: bs =>
      if a.toNat < b.toNat then true
      else if b.toNat < a.toNat then false
      else charListLe as bs

/-- Canonical key of an unordered node pair. -/
def pairKey (a b : String) : String × String :=
  if charListLe a.data b.data then (a, b) else (b, a)

/-- Does the coordinator already run a test for this unordered pair? -/
def hasActivePair (c : Coordinator) (k : String × String) : Bool :=
  c.activeTests.any fun p => decide (p.1 = k)

/-- Modelled from the spec: `start_test(target_node_id, duration_seconds) →
test_id`, guaranteeing at most one concurrent test per unordered node pair;
a second request for an already-active pair fails with `TestInProgress`. -/
def start_test (c : Coordinator) (target : String) (durationSeconds : Nat) :
    Except BwError (String × Coordinator) :=
  let _ := durationSeconds
  let k := pairKey c.localId target
  if hasActivePair c k then Except.error BwError.TestInProgress
  else
    let testId := "test-" ++ toString c.nextId
    Except.ok (testId,
      { c with activeTests := c.activeTests ++ [(k, testId)], nextId := c.nextId + 1 })

/-- Modelled from the spec: test completion releases the pair's concurrency
slot (the entry for that test id is removed). -/
def complete_test (c : Coordinator) (testId : String) : Coordinator :=
  { c with activeTests := c.activeTests.filter fun p => decide (p.2 ≠ testId) }

/-- Address family; fixes the bit width of addresses and mask lengths. -/
inductive AddrFamily
  | v4
  | v6
deriving Repr, DecidableEq

/-- Bit width of an address family: 32 for v4, 128 for v6. -/
def AddrFamily.width : AddrFamily → Nat
  | AddrFamily.v4 => 32
  | AddrFamily.v6 => 128

/-- Modelled from the spec: a Route record — destination network (address
bits as a natural plus mask length), optional gateway, interface name,
non-negative metric, flags. The route-intelligence core is not implemented
in the repository; only the design documents describe it. -/
structure Route where
  dest : Nat
  masklen : Nat
  gateway : Option Nat
  iface : String
  metric : Nat
  flags : List String
deriving Repr, DecidableEq

/-- Modelled from the spec: a RouteTable — one node's routes in insertion
order, all of one address family. -/
structure RouteTable where
  family : AddrFamily
  routes : List Route
deriving Repr, DecidableEq

/-- Errors of the route-ingestion boundary. -/
inductive RouteError
  | InvalidRoute
  | PlatformNotSupported
deriving Repr, DecidableEq

/-- Does route `r` match address `a` at width `w`? The top `r.masklen` bits
of `a` must agree with the route's destination network. -/
def routeMatches (w : Nat) (r : Route) (a : Nat) : Bool :=
  decide (r.masklen ≤ w) &&
    decide (a / 2 ^ (w - r.masklen) = r.dest / 2 ^ (w - r.masklen))

/-- Candidate `p` (an insertion index paired with a route) beats candidate
`q`: strictly longer mask, or equal mask and strictly lower metric, or equal
mask and metric and strictly earlier insertion. -/
def BetterCand (p q : Nat × Route) : Prop :=
  q.2.masklen < p.2.masklen ∨
    (p.2.masklen = q.2.masklen ∧
      (p.2.metric < q.2.metric ∨ (p.2.metric = q.2.metric ∧ p.1 < q.1)))

instance betterCandDecidable (p q : Nat × Route) : Decidable (BetterCand p q) := by
  unfold BetterCand
  infer_instance

/-- Select the best candidate from a list, keeping the current best on ties. -/
def pickBest : Option (Nat × Route) → List (Nat × Route) → Option (Nat × Route)
  | acc, [] => acc
  | none, x :: xs => pickBest (some x) xs
  | some b, x :: xs => pickBest (some (if BetterCand x b then x else b)) xs

/-- Modelled from the spec: `lookup(address)` — the best-matching route or
none; longest matching mask wins, then lowest metric, then earliest
insertion order. -/
def lookup (t : RouteTable) (a : Nat) : Option Route :=
  (pickBest none
      ((t.routes.enum).filter fun p => routeMatches t.family.width p.2 a)).map Prod.snd

/-- Modelled from the spec: `insert(route)` validates that the mask length is
within bounds for the table's address family and fails with `InvalidRoute`
otherwise; a valid route is appended in insertion order. -/
def insert (t : RouteTable) (r : Route) : Except RouteError RouteTable :=
  if r.masklen ≤ t.family.width then Except.ok { t with routes := t.routes ++ [r] }
  else Except.error RouteError.InvalidRoute

/-- Insert a parsed route list into a table, stopping at the first failure. -/
def rebuildFrom (t : RouteTable) : List Route → Except RouteError RouteTable
  | [] => Except.ok t
  | r :: rs =>
      match insert t r with
      | Except.ok t' => rebuildFrom t' rs
      | Except.error e => Except.error e

/-- Modelled from the spec: `rebuild(routes)` builds a fresh table from the
full parsed route list. -/
def rebuild (fam : AddrFamily) (rs : List Route) : Except RouteError RouteTable :=
  rebuildFrom { family := fam, routes := [] } rs

/-- The engine's active table, replaced wholesale by a successful rebuild. -/
structure EngineState where
  active : RouteTable
deriving Repr, DecidableEq

/-- Modelled from the spec: a reload swaps in a new table only after a fully
successful parse and rebuild; a parse failure or any `InvalidRoute` during
rebuild leaves the active table untouched. -/
def reload (s : EngineState) (parsed : Except RouteError (List Route)) : EngineState :=
  match parsed with
  | Except.error _ => s
  | Except.ok rs =>
      match rebuild s.active.family rs with
      | Except.ok t => { active := t }
      | Except.error _ => s

theorem handleLatencyUpdate_discoveredNodes (conns : List (String × ℚ)) :
    ∀ st : ClientState, (handleLatencyUpdate st conns).discoveredNodes = st.discoveredNodes := by
  induction conns with
  | nil => intro st; rfl
  | cons c cs ih =>
    intro st
    have hstep : handleLatencyUpdate st (c :: cs) =
        handleLatencyUpdate { st with latencyData := mapSet st.latencyData c.1 c.2 } cs := rfl
    rw [hstep, ih]

/-- C7: a wire message whose `type` is outside the closed set of known
message kinds is handled without a crash and without touching client state:
the dispatcher falls through the switch and returns the state unchanged. -/
theorem unknown_message_type_is_noop (st : ClientState) (m : Message)
    (h : m.type ∉ knownMessageTypes) : handleWebSocketMessage st m = st := by
  simp only [knownMessageTypes, List.mem_cons, List.not_mem_nil, or_false, not_or] at h
  obtain ⟨h1, h2, h3, h4, h5, h6, h7, h8⟩ := h
  simp [handleWebSocketMessage, h1, h2, h3, h4, h5, h6, h7, h8]

/-- A message carrying only a type field and inert payload defaults. -/
def msgOfType (ty : String) : Message :=
  { type := ty,
    node := { id := "", hostname := "", addresses := [], status := "" },
    node_id := "", status := "", connections := [], test_id := "",
    target_node_id := "", upload_mbps := 0, download_mbps := 0,
    phase := "", progress_percent := 0, text := "" }

/-- The empty client state right after construction. -/
def stEmpty : ClientState :=
  { discoveredNodes := [], latencyData := [], bandwidthTests := [], bandwidthResults := [] }

theorem unknown_message_type_is_noop_witness :
    handleWebSocketMessage stEmpty (msgOfType "goodbye") = stEmpty :=
  unknown_message_type_is_noop stEmpty (msgOfType "goodbye") (by decide)

/-- C9: `getLatencyColor` is total, returns exactly the palette color of the
latency's threshold band (thresholds 20, 50, 100, 200 ms), and the band
index never decreases as latency increases. -/
theorem getLatencyColor_total_monotone (l1 l2 : ℚ) (h : l1 ≤ l2) :
    getLatencyColor l1 = latencyPalette.getD (latencyBand l1) 0 ∧
    getLatencyColor l1 ∈ latencyPalette ∧
    latencyBand l1 ≤ latencyBand l2 := by
  refine ⟨?_, ?_, ?_⟩
  · unfold getLatencyColor latencyBand latencyPalette
    split_ifs <;> rfl
  · unfold getLatencyColor latencyPalette
    split_ifs <;> simp
  · unfold latencyBand
    split_ifs <;> first | omega | linarith

theorem getLatencyColor_total_monotone_witness :
    getLatencyColor 10 = latencyPalette.getD (latencyBand 10) 0 ∧
    getLatencyColor 10 ∈ latencyPalette ∧
    latencyBand 10 ≤ latencyBand 300 :=
  getLatencyColor_total_monotone 10 300 (by norm_num)

/-- C10: `handleNodeStatusChanged` with an unknown node id leaves the state
entirely unchanged; with a known id it rewrites only that node's `status`
field, leaving every other map entry and every other part of the client
state untouched. -/
theorem handleNodeStatusChanged_frame (st : ClientState) (nodeId status : String) :
    (mapGet st.discoveredNodes nodeId = none → handleNodeStatusChanged st nodeId status = st) ∧
    (∀ n, mapGet st.discoveredNodes nodeId = some n →
      mapGet (handleNodeStatusChanged st nodeId status).discoveredNodes nodeId =
          some { n with status := status } ∧
        (∀ k, k ≠ nodeId →
          mapGet (handleNodeStatusChanged st nodeId status).discoveredNodes k =
            mapGet st.discoveredNodes k) ∧
        (handleNodeStatusChanged st nodeId status).latencyData = st.latencyData ∧
        (handleNodeStatusChanged st nodeId status).bandwidthTests = st.bandwidthTests ∧
        (handleNodeStatusChanged st nodeId status).bandwidthResults = st.bandwidthResults) := by
  constructor
  · intro h
    simp [handleNodeStatusChanged, h]
  · intro n h
    unfold handleNodeStatusChanged
    rw [h]
    exact ⟨mapGet_mapSet_self _ _ _,
      fun k hk => mapGet_mapSet_ne _ _ _ _ hk, rfl, rfl, rfl⟩

/-- A discovered node used in concrete checks. -/
def nodeA : NodeInfo := { id := "a", hostname := "host-a", addresses := ["10.0.0.1"], status := "online" }

/-- A second discovered node used in concrete checks. -/
def nodeB : NodeInfo := { id := "b", hostname := "host-b", addresses := ["10.0.0.2"], status := "online" }

/-- A client state with two discovered nodes. -/
def stTwoNodes : ClientState :=
  { discoveredNodes := [("a", nodeA), ("b", nodeB)],
    latencyData := [], bandwidthTests := [], bandwidthResults := [] }

theorem handleNodeStatusChanged_frame_witness :
    mapGet (handleNodeStatusChanged stTwoNodes "a" "offline").discoveredNodes "a" =
        some { nodeA with status := "offline" } ∧
      mapGet (handleNodeStatusChanged stTwoNodes "a" "offline").discoveredNodes "b" =
        mapGet stTwoNodes.discoveredNodes "b" :=
  ⟨((handleNodeStatusChanged_frame stTwoNodes "a" "offline").2 nodeA (by decide)).1,
    (((handleNodeStatusChanged_frame stTwoNodes "a" "offline").2 nodeA (by decide)).2.1 "b"
      (by decide))⟩

/-- C5: no received wire message removes an entry from the client's
discovered-node map, and no announcement merge removes an entry from the
(spec-modelled) node registry; removal is reserved to the local reap path. -/
theorem discovery_never_removes (st : ClientState) (m : Message)
    (reg : List (String × NodeRec)) (a : AnnounceMsg) (k : String) :
    ((mapGet st.discoveredNodes k).isSome →
      (mapGet (handleWebSocketMessage st m).discoveredNodes k).isSome) ∧
    ((mapGet reg k).isSome → (mapGet (upsert reg a).1 k).isSome) := by
  constructor
  · intro h
    unfold handleWebSocketMessage
    split_ifs
    · exact isSome_mapGet_mapSet _ _ _ _ h
    · unfold handleNodeStatusChanged
      cases hg : mapGet st.discoveredNodes m.node_id with
      | none => exact h
      | some n => exact isSome_mapGet_mapSet _ _ _ _ h
    · rw [handleLatencyUpdate_discoveredNodes]
      exact h
    · exact h
    · exact h
    · exact h
    · exact h
    · exact h
    · exact h
  · intro h
    unfold upsert
    cases hg : mapGet reg a.node_id with
    | none => exact isSome_mapGet_mapSet _ _ _ _ h
    | some old => exact isSome_mapGet_mapSet _ _ _ _ h

theorem discovery_never_removes_witness :
    (mapGet (handleWebSocketMessage stTwoNodes (msgOfType "node_discovered")).discoveredNodes
        "a").isSome :=
  (discovery_never_removes stTwoNodes (msgOfType "node_discovered") [] ⟨"", "", [], 0, 0, []⟩
      "a").1 (by decide)

/-- The last progress message of a running bandwidth test to node-b. -/
def msgBwProgress : Message :=
  { msgOfType "bandwidth_test_progress" with
    test_id := "test-1", target_node_id := "node-b", phase := "upload", progress_percent := 50 }

/-- Client state while the bandwidth test "test-1" is active. -/
def stBwActive : ClientState :=
  { stEmpty with bandwidthTests := [("test-1", msgBwProgress)] }

/-- The completion push message under the documented name
`bandwidth_test_complete` (API_SPECIFICATION.md) with averaged Mbps. -/
def msgBwComplete : Message :=
  { msgOfType "bandwidth_test_complete" with
    test_id := "test-1", target_node_id := "node-b", upload_mbps := 87, download_mbps := 95 }

/-- The same payload under the `bandwidth_test_result` name that the client
dispatcher actually matches. -/
def msgBwResult : Message := { msgBwComplete with type := "bandwidth_test_result" }

/-- C6: the repository's API documentation delivers bandwidth-test completion
as a push message of kind `bandwidth_test_complete`, but the client
dispatcher only routes `bandwidth_test_result`: a `bandwidth_test_complete`
message is silently dropped (no result recorded, the active test entry is
not cleared), while the identical payload under the undocumented
`bandwidth_test_result` name does reach the handler that records the Mbps
result for the target node and clears the active test. -/
theorem bandwidth_complete_message_ignored :
    msgBwComplete.type = "bandwidth_test_complete" ∧
    (mapGet stBwActive.bandwidthTests "test-1").isSome = true ∧
    handleWebSocketMessage stBwActive msgBwComplete = stBwActive ∧
    (handleWebSocketMessage stBwActive msgBwResult).bandwidthTests = [] ∧
    mapGet (handleWebSocketMessage stBwActive msgBwResult).bandwidthResults "node-b" =
      some msgBwResult := by
  refine ⟨rfl, rfl, ?_, ?_, ?_⟩ <;> rfl

/-- C3: merging an announcement never moves a node's stored `last_seen`
backward; a stale announcement (timestamp not newer than the stored
`last_seen`) is still accepted for merge (its addresses are unioned in) but
leaves `last_seen` and the status untouched. -/
theorem upsert_last_seen_monotone (reg : List (String × NodeRec)) (m : AnnounceMsg)
    (old : NodeRec) (h : mapGet reg m.node_id = some old) :
    ∃ merged, mapGet (upsert reg m).1 m.node_id = some merged ∧
      old.last_seen ≤ merged.last_seen ∧
      (∀ a, a ∈ m.addresses → a ∈ merged.addresses) ∧
      (m.timestamp ≤ old.last_seen →
        merged.last_seen = old.last_seen ∧ merged.status = old.status) := by
  refine ⟨mergeNode old m, ?_, ?_, ?_, ?_⟩
  · unfold upsert
    rw [h]
    simp [mapGet_mapSet_self]
  · show old.last_seen ≤ max old.last_seen m.timestamp
    exact le_max_left _ _
  · intro a ha
    show a ∈ unionMerge old.addresses m.addresses
    unfold unionMerge
    by_cases hmem : a ∈ old.addresses
    · exact List.mem_append.2 (Or.inl hmem)
    · exact List.mem_append.2 (Or.inr (List.mem_filter.2 ⟨ha, by simpa using hmem⟩))
  · intro hstale
    constructor
    · show max old.last_seen m.timestamp = old.last_seen
      exact max_eq_left hstale
    · show (if old.last_seen < m.timestamp ∧ old.status = NodeStatus.Offline
          then NodeStatus.Online else old.status) = old.status
      rw [if_neg]
      intro hc
      exact absurd hc.1 (not_lt.2 hstale)

/-- A registry record used in concrete checks: node online, last seen at 100. -/
def recSeen100 : NodeRec :=
  { hostname := "host-a", addresses := ["10.0.0.1"], port := 5678,
    status := NodeStatus.Online, last_seen := 100, known_peers := [] }

/-- A delayed duplicate announcement with the older timestamp 90. -/
def annStale : AnnounceMsg :=
  { node_id := "n1", hostname := "host-a", addresses := ["10.0.0.2"], port := 5678,
    timestamp := 90, known_peers := [] }

theorem upsert_last_seen_monotone_witness :
    ∃ merged, mapGet (upsert [("n1", recSeen100)] annStale).1 "n1" = some merged ∧
      recSeen100.last_seen ≤ merged.last_seen ∧
      (∀ a, a ∈ annStale.addresses → a ∈ merged.addresses) ∧
      (annStale.timestamp ≤ recSeen100.last_seen →
        merged.last_seen = recSeen100.last_seen ∧ merged.status = recSeen100.status) :=
  upsert_last_seen_monotone [("n1", recSeen100)] annStale recSeen100 (by decide)

/-- C8: `insert` accepts a route exactly when its mask length is within the
bounds of the table's address family and fails with `InvalidRoute` otherwise,
and a reload whose parse or rebuild fails leaves the active table untouched:
the swap happens only after a fully successful parse and rebuild. -/
theorem insert_validates_reload_atomic (t : RouteTable) (r : Route) (s : EngineState)
    (parsed : Except RouteError (List Route)) :
    (t.family.width < r.masklen → insert t r = Except.error RouteError.InvalidRoute) ∧
    (∀ t', insert t r = Except.ok t' → r.masklen ≤ t.family.width) ∧
    (∀ e, parsed = Except.error e → reload s parsed = s) ∧
    (∀ rs e, parsed = Except.ok rs → rebuild s.active.family rs = Except.error e →
      reload s parsed = s) := by
  refine ⟨?_, ?_, ?_, ?_⟩
  · intro hb
    unfold insert
    rw [if_neg (by omega)]
  · intro t' hok
    unfold insert at hok
    by_cases hb : r.masklen ≤ t.family.width
    · exact hb
    · rw [if_neg hb] at hok
      cases hok
  · intro e he
    rw [he]
    rfl
  · intro rs e hp hr
    rw [hp]
    show (match rebuild s.active.family rs with
      | Except.ok t' => ({ active := t' } : EngineState)
      | Except.error _ => s) = s
    rw [hr]

/-- An invalid v4 route: mask length 40 exceeds the 32-bit family bound. -/
def routeMask40 : Route :=
  { dest := 0, masklen := 40, gateway := none, iface := "eth0", metric := 0, flags := [] }

/-- An empty v4 route table. -/
def tableV4Empty : RouteTable := { family := AddrFamily.v4, routes := [] }

/-- An engine whose active table is the empty v4 table. -/
def engineV4 : EngineState := { active := tableV4Empty }

theorem insert_validates_reload_atomic_witness :
    insert tableV4Empty routeMask40 = Except.error RouteError.InvalidRoute ∧
    reload engineV4 (Except.ok [routeMask40]) = engineV4 :=
  ⟨(insert_validates_reload_atomic tableV4Empty routeMask40 engineV4
        (Except.ok [routeMask40])).1 (by decide),
    (insert_validates_reload_atomic tableV4Empty routeMask40 engineV4
        (Except.ok [routeMask40])).2.2.2 [routeMask40] RouteError.InvalidRoute rfl rfl⟩

theorem start_test_of_active (c : Coordinator) (target : String) (d : Nat)
    (h : hasActivePair c (pairKey c.localId target) = true) :
    start_test c target d = Except.error BwError.TestInProgress := by
  unfold start_test
  rw [if_pos h]

theorem start_test_of_inactive (c : Coordinator) (target : String) (d : Nat)
    (h : hasActivePair c (pairKey c.localId target) = false) :
    start_test c target d = Except.ok ("test-" ++ toString c.nextId,
      { c with
        activeTests :=
          c.activeTests ++ [(pairKey c.localId target, "test-" ++ toString c.nextId)],
        nextId := c.nextId + 1 }) := by
  unfold start_test
  rw [if_neg (by simp [h])]

/-- C2: a successful `start_test` makes its unordered pair active, a second
`start_test` for the same pair fails with `TestInProgress` while the first
test runs (the running test's slot is untouched), and once the first test
completes, `start_test` for that pair succeeds again. -/
theorem start_test_pair_exclusive (c c1 : Coordinator) (target testId : String)
    (d1 d2 d3 : Nat) (h : start_test c target d1 = Except.ok (testId, c1)) :
    start_test c1 target d2 = Except.error BwError.TestInProgress ∧
    hasActivePair c1 (pairKey c.localId target) = true ∧
    ∃ r, start_test (complete_test c1 testId) target d3 = Except.ok r := by
  by_cases hk : hasActivePair c (pairKey c.localId target) = true
  · rw [start_test_of_active c target d1 hk] at h
    cases h
  · have hk' : hasActivePair c (pairKey c.localId target) = false := by
      simpa using hk
    rw [start_test_of_inactive c target d1 hk'] at h
    injection h with h'
    have htid := congrArg Prod.fst h'
    have hc1 := congrArg Prod.snd h'
    simp only at htid hc1
    subst hc1
    subst htid
    have hall : ∀ p ∈ c.activeTests, decide (p.1 = pairKey c.localId target) = false := by
      rw [hasActivePair, List.any_eq_false] at hk'
      intro p hp
      simpa using hk' p hp
    have hap1 : hasActivePair
        { c with
          activeTests :=
            c.activeTests ++ [(pairKey c.localId target, "test-" ++ toString c.nextId)],
          nextId := c.nextId + 1 } (pairKey c.localId target) = true := by
      simp [hasActivePair, List.any_append]
    have hap2 : hasActivePair
        (complete_test
          { c with
            activeTests :=
              c.activeTests ++ [(pairKey c.localId target, "test-" ++ toString c.nextId)],
            nextId := c.nextId + 1 } ("test-" ++ toString c.nextId))
        (pairKey c.localId target) = false := by
      rw [hasActivePair, List.any_eq_false]
      intro p hp
      simp only [complete_test, List.filter_append] at hp
      rcases List.mem_append.1 hp with hold | hone
      · have hfalse := hall p (List.mem_filter.1 hold).1
        simp [hfalse]
      · exfalso
        have := (List.mem_filter.1 hone).2
        have hpm := (List.mem_filter.1 hone).1
        simp only [List.mem_singleton] at hpm
        subst hpm
        simp at this
    exact ⟨start_test_of_active _ target d2 hap1, hap1,
      ⟨_, start_test_of_inactive _ target d3 hap2⟩⟩

/-- A fresh coordinator on node-a with no active tests. -/
def coordFresh : Coordinator := { localId := "node-a", activeTests := [], nextId := 0 }

/-- The coordinator after starting the first test to node-b. -/
def coordBusy : Coordinator :=
  { localId := "node-a", activeTests := [(("node-a", "node-b"), "test-0")], nextId := 1 }

theorem start_test_pair_exclusive_witness :
    start_test coordBusy "node-b" 10 = Except.error BwError.TestInProgress ∧
    hasActivePair coordBusy (pairKey coordFresh.localId "node-b") = true ∧
    ∃ r, start_test (complete_test coordBusy "test-0") "node-b" 10 = Except.ok r :=
  start_test_pair_exclusive coordFresh coordBusy "node-b" "test-0" 10 10 10 rfl

theorem mem_eq_of_mapGet_nodup {α : Type} (m : List (String × α)) (k : String) (v : α)
    (hnd : (m.map Prod.fst).Nodup) (h : mapGet m k = some v) :
    ∀ p ∈ m, p.1 = k → p.2 = v := by
  induction m with
  | nil => intro p hp; cases hp
  | cons q qs ih =>
    simp only [List.map_cons, List.nodup_cons] at hnd
    obtain ⟨hq, hnd'⟩ := hnd
    intro p hp hpk
    rcases List.mem_cons.1 hp with rfl | hp'
    · rw [mapGet, if_pos hpk] at h
      exact Option.some.inj h
    · by_cases hqk : q.1 = k
      · exfalso
        apply hq
        rw [hqk, ← hpk]
        exact List.mem_map_of_mem Prod.fst hp'
      · rw [mapGet, if_neg hqk] at h
        exact ih hnd' h p hp' hpk

theorem reap_event_count_zero_of_safe (ps : List (String × NodeRec)) (now timeout : Nat)
    (id : String) (h : ∀ p ∈ ps, p.1 = id → ¬ needsReap now timeout p.2) :
    ((reap ps now timeout).2).count (RegEvent.node_status_changed id NodeStatus.Offline) = 0 := by
  induction ps with
  | nil => rfl
  | cons p ps ih =>
    have hrest : ∀ q ∈ ps, q.1 = id → ¬ needsReap now timeout q.2 :=
      fun q hq => h q (List.mem_cons_of_mem p hq)
    by_cases hp : needsReap now timeout p.2
    · have hpid : p.1 ≠ id := fun hid => h p (List.mem_cons_self p ps) hid hp
      simp only [reap, List.filter_cons, decide_eq_true_eq, hp, if_pos, List.map_cons,
        List.count_cons] at *
      rw [ih hrest]
      simp [hpid]
    · simp only [reap, List.filter_cons, decide_eq_true_eq, hp, if_neg, List.map_cons] at *
      rw [if_neg hp]
      exact ih hrest

theorem reap_event_count_one (reg : List (String × NodeRec)) (now timeout : Nat)
    (id : String) (n : NodeRec) (hnd : (reg.map Prod.fst).Nodup)
    (h : mapGet reg id = some n) (hr : needsReap now timeout n) :
    ((reap reg now timeout).2).count (RegEvent.node_status_changed id NodeStatus.Offline) = 1 := by
  induction reg with
  | nil => cases h
  | cons p ps ih =>
    simp only [List.map_cons, List.nodup_cons] at hnd
    obtain ⟨hq, hnd'⟩ := hnd
    by_cases hpk : p.1 = id
    · rw [mapGet, if_pos hpk] at h
      have hpv : p.2 = n := Option.some.inj h
      have hzero :
          ((reap ps now timeout).2).count
            (RegEvent.node_status_changed id NodeStatus.Offline) = 0 := by
        apply reap_event_count_zero_of_safe
        intro q hqmem hqk hneed
        apply hq
        rw [hpk, ← hqk]
        exact List.mem_map_of_mem Prod.fst hqmem
      have hp : needsReap now timeout p.2 := by rw [hpv]; exact hr
      simp only [reap, List.filter_cons, decide_eq_true_eq, hp, if_pos, List.map_cons,
        List.count_cons] at *
      rw [hzero, hpk]
      simp
    · rw [mapGet, if_neg hpk] at h
      by_cases hp : needsReap now timeout p.2
      · simp only [reap, List.filter_cons, decide_eq_true_eq, hp, if_pos, List.map_cons,
          List.count_cons] at *
        rw [ih hnd' h]
        simp [hpk]
      · simp only [reap, List.filter_cons, decide_eq_true_eq, List.map_cons] at *
        rw [if_neg hp]
        exact ih hnd' h

/-- C4: a node silent for longer than `peer_timeout` is marked Offline by one
`reap` run, which emits exactly one `node_status_changed` event for it; a
further `reap` run while the node stays Offline leaves its entry unchanged
and emits no further event for it. -/
theorem reap_offline_once (reg : List (String × NodeRec)) (now now2 timeout : Nat)
    (id : String) (n : NodeRec) (hnd : (reg.map Prod.fst).Nodup)
    (h : mapGet reg id = some n) (hs : n.status ≠ NodeStatus.Offline)
    (ht : timeout < now - n.last_seen) :
    mapGet (reap reg now timeout).1 id = some { n with status := NodeStatus.Offline } ∧
    ((reap reg now timeout).2).count
      (RegEvent.node_status_changed id NodeStatus.Offline) = 1 ∧
    mapGet (reap (reap reg now timeout).1 now2 timeout).1 id =
      some { n with status := NodeStatus.Offline } ∧
    ((reap (reap reg now timeout).1 now2 timeout).2).count
      (RegEvent.node_status_changed id NodeStatus.Offline) = 0 := by
  have hr : needsReap now timeout n := ⟨hs, ht⟩
  have hget1 : mapGet (reap reg now timeout).1 id =
      some { n with status := NodeStatus.Offline } := by
    show mapGet (reg.map fun p =>
        (p.1, if needsReap now timeout p.2 then { p.2 with status := NodeStatus.Offline }
          else p.2)) id = _
    rw [mapGet_map_value (fun v =>
      if needsReap now timeout v then { v with status := NodeStatus.Offline } else v) reg id, h]
    simp [hr]
  have hoffline : ¬ needsReap now2 timeout { n with status := NodeStatus.Offline } := by
    intro hc
    exact hc.1 rfl
  refine ⟨hget1, reap_event_count_one reg now timeout id n hnd h hr, ?_, ?_⟩
  · show mapGet ((reap reg now timeout).1.map fun p =>
        (p.1, if needsReap now2 timeout p.2 then { p.2 with status := NodeStatus.Offline }
          else p.2)) id = _
    rw [mapGet_map_value (fun v =>
      if needsReap now2 timeout v then { v with status := NodeStatus.Offline } else v)
      (reap reg now timeout).1 id, hget1]
    simp [hoffline]
  · apply reap_event_count_zero_of_safe
    intro p hp hpk
    obtain ⟨q, hqmem, hqe⟩ := List.mem_map.1 hp
    have hqk : q.1 = id := by rw [← hpk, ← hqe]
    have hqv : q.2 = n := mem_eq_of_mapGet_nodup reg id n hnd h q hqmem hqk
    have hp2 : p.2 = if needsReap now timeout n
        then { n with status := NodeStatus.Offline } else n := by
      rw [← hqe, ← hqv]
    rw [hp2, if_pos hr]
    exact hoffline

/-- A node last seen at time 0, used in the concrete reaper check. -/
def recSilent : NodeRec :=
  { hostname := "host-b", addresses := [], port := 5678,
    status := NodeStatus.Online, last_seen := 0, known_peers := [] }

theorem reap_offline_once_witness :
    ((reap [("b", recSilent)] 91 90).2).count
      (RegEvent.node_status_changed "b" NodeStatus.Offline) = 1 ∧
    ((reap (reap [("b", recSilent)] 91 90).1 200 90).2).count
      (RegEvent.node_status_changed "b" NodeStatus.Offline) = 0 :=
  ⟨(reap_offline_once [("b", recSilent)] 91 200 90 "b" recSilent (by decide) (by decide)
      (by decide) (by decide)).2.1,
    (reap_offline_once [("b", recSilent)] 91 200 90 "b" recSilent (by decide) (by decide)
      (by decide) (by decide)).2.2.2⟩

theorem betterCand_irrefl (b : Nat × Route) : ¬ BetterCand b b := by
  unfold BetterCand
  omega

theorem betterCand_trans (x y z : Nat × Route) (h1 : BetterCand x y) (h2 : BetterCand y z) :
    BetterCand x z := by
  unfold BetterCand at *
  omega

theorem betterCand_resolve (x y z : Nat × Route) (h1 : ¬ BetterCand x y)
    (h2 : BetterCand x z) : BetterCand y z := by
  unfold BetterCand at *
  omega

theorem pickBest_some (l : List (Nat × Route)) :
    ∀ c : Nat × Route, ∃ b, pickBest (some c) l = some b := by
  induction l with
  | nil => intro c; exact ⟨c, rfl⟩
  | cons x xs ih => intro c; exact ih (if BetterCand x c then x else c)

theorem pickBest_mem (l : List (Nat × Route)) :
    ∀ (acc : Option (Nat × Route)) (b : Nat × Route),
      pickBest acc l = some b → acc = some b ∨ b ∈ l := by
  induction l with
  | nil =>
    intro acc b h
    cases acc with
    | none => simp [pickBest] at h
    | some c => exact Or.inl h
  | cons x xs ih =>
    intro acc b h
    cases acc with
    | none =>
      rcases ih (some x) b h with hx | hmem
      · exact Or.inr (Option.some.inj hx ▸ List.mem_cons_self x xs)
      · exact Or.inr (List.mem_cons_of_mem x hmem)
    | some c =>
      rcases ih (some (if BetterCand x c then x else c)) b h with hx | hmem
      · have hb := Option.some.inj hx
        by_cases hbc : BetterCand x c
        · rw [if_pos hbc] at hb
          exact Or.inr (hb ▸ List.mem_cons_self x xs)
        · rw [if_neg hbc] at hb
          exact Or.inl (by rw [hb])
      · exact Or.inr (List.mem_cons_of_mem x hmem)

theorem pickBest_dominates (l : List (Nat × Route)) :
    ∀ (acc : Option (Nat × Route)) (b : Nat × Route), pickBest acc l = some b →
      (∀ c, acc = some c → ¬ BetterCand c b) ∧ ∀ x ∈ l, ¬ BetterCand x b := by
  induction l with
  | nil =>
    intro acc b h
    cases acc with
    | none => simp [pickBest] at h
    | some c =>
      have hcb : c = b := Option.some.inj h
      constructor
      · intro d hd
        have hdc : c = d := Option.some.inj hd
        rw [← hdc, hcb]
        exact betterCand_irrefl b
      · intro x hx
        cases hx
  | cons x xs ih =>
    intro acc b h
    cases acc with
    | none =>
      obtain ⟨hacc, hrest⟩ := ih (some x) b h
      have hxb : ¬ BetterCand x b := hacc x rfl
      constructor
      · intro c hc
        cases hc
      · intro y hy
        rcases List.mem_cons.1 hy with rfl | hy'
        · exact hxb
        · exact hrest y hy'
    | some c =>
      obtain ⟨hacc, hrest⟩ := ih (some (if BetterCand x c then x else c)) b h
      by_cases hbc : BetterCand x c
      · rw [if_pos hbc] at hacc
        have hxb : ¬ BetterCand x b := hacc x rfl
        have hcb : ¬ BetterCand c b := fun hc => hxb (betterCand_trans x c b hbc hc)
        constructor
        · intro d hd
          exact Option.some.inj hd ▸ hcb
        · intro y hy
          rcases List.mem_cons.1 hy with rfl | hy'
          · exact hxb
          · exact hrest y hy'
      · rw [if_neg hbc] at hacc
        have hcb : ¬ BetterCand c b := hacc c rfl
        have hxb : ¬ BetterCand x b := fun hx => hcb (betterCand_resolve x c b hbc hx)
        constructor
        · intro d hd
          exact Option.some.inj hd ▸ hcb
        · intro y hy
          rcases List.mem_cons.1 hy with rfl | hy'
          · exact hxb
          · exact hrest y hy'

/-- C1: whenever some route of the table matches the queried address,
`lookup` returns a matching route of the table that is optimal in the
claim's order: no matching route has a longer mask, none with the same mask
length has a lower metric, and among routes tied on mask length and metric
the returned one has the earliest insertion index. -/
theorem lookup_best_route (t : RouteTable) (a : Nat) (p : Nat × Route)
    (hp : p ∈ t.routes.enum) (hm : routeMatches t.family.width p.2 a = true) :
    ∃ q : Nat × Route, q ∈ t.routes.enum ∧ routeMatches t.family.width q.2 a = true ∧
      lookup t a = some q.2 ∧
      ∀ x : Nat × Route, x ∈ t.routes.enum → routeMatches t.family.width x.2 a = true →
        x.2.masklen ≤ q.2.masklen ∧
        (x.2.masklen = q.2.masklen → q.2.metric ≤ x.2.metric) ∧
        (x.2.masklen = q.2.masklen → x.2.metric = q.2.metric → q.1 ≤ x.1) := by
  set cands := (t.routes.enum).filter (fun p => routeMatches t.family.width p.2 a)
    with hcands
  have hpc : p ∈ cands := by
    rw [hcands]
    exact List.mem_filter.2 ⟨hp, hm⟩
  obtain ⟨b, hb⟩ : ∃ b, pickBest none cands = some b := by
    cases hc : cands with
    | nil =>
      rw [hc] at hpc
      cases hpc
    | cons y ys =>
      obtain ⟨b, hb⟩ := pickBest_some ys y
      exact ⟨b, hb⟩
  have hbmem : b ∈ cands := by
    rcases pickBest_mem cands none b hb with h0 | h1
    · cases h0
    · exact h1
  have hbf := List.mem_filter.1 (hcands ▸ hbmem)
  obtain ⟨hdomacc, hdom⟩ := pickBest_dominates cands none b hb
  refine ⟨b, hbf.1, hbf.2, ?_, ?_⟩
  · unfold lookup
    rw [← hcands, hb]
    rfl
  · intro x hx hxm
    have hxc : x ∈ cands := by
      rw [hcands]
      exact List.mem_filter.2 ⟨hx, hxm⟩
    have hnb : ¬ BetterCand x b := hdom x hxc
    unfold BetterCand at hnb
    refine ⟨?_, ?_, ?_⟩ <;> omega

/-- The spec's example default route: 0.0.0.0/0 via 192.168.1.1, metric 100. -/
def routeDefault : Route :=
  { dest := 0, masklen := 0, gateway := some 3232235777, iface := "eth0",
    metric := 100, flags := [] }

/-- The spec's example tunnel route: 10.0.0.0/24 dev tun0, metric 50. -/
def routeTun : Route :=
  { dest := 167772160, masklen := 24, gateway := none, iface := "tun0",
    metric := 50, flags := [] }

/-- The spec's two-route example table. -/
def tableExample : RouteTable :=
  { family := AddrFamily.v4, routes := [routeDefault, routeTun] }

theorem lookup_best_route_witness :
    ∃ q : Nat × Route, q ∈ tableExample.routes.enum ∧
      routeMatches tableExample.family.width q.2 167772165 = true ∧
      lookup tableExample 167772165 = some q.2 ∧
      ∀ x : Nat × Route, x ∈ tableExample.routes.enum →
        routeMatches tableExample.family.width x.2 167772165 = true →
          x.2.masklen ≤ q.2.masklen ∧
          (x.2.masklen = q.2.masklen → q.2.metric ≤ x.2.metric) ∧
          (x.2.masklen = q.2.masklen → x.2.metric = q.2.metric → q.1 ≤ x.1) :=
  lookup_best_route tableExample 167772165 (1, routeTun) (by decide) (by decide)

theorem lookup_example_tun : lookup tableExample 167772165 = some routeTun := by decide

theorem lookup_example_default : lookup tableExample 134744072 = some routeDefault := by decide

end Cuthbert
